import Mathlib

/-!
Shallow embedding of `assets/add_new_tags_to_all.py` from GeonBit.UI.

The script defines `AddNewTags.process_file(path, dryrun)`:

* if `dryrun` is truthy, it returns `path` immediately (before any read);
* otherwise it reads the file content into `buffer`;
* if the substring `"Padding"` occurs in `buffer` it returns `path`;
* otherwise it calls `buffer.replace("  </Asset>", "    <Padding Null=\"true\" />\n  </Asset>")`
  (Python `str.replace` substitutes every non-overlapping occurrence,
  scanning left to right), writes `buffer` back to the file, and falls off
  the end of the function, returning `None`.

File content is modelled as `List Char`.  Python's substring test
(`"Padding" in buffer`) is the contiguous-sublist relation `<:+:`.
Python's `str.replace` is modelled by `replaceAll` below, a left-to-right
non-overlapping scan; it is written with an explicit fuel argument equal to
the input length so that it is structurally recursive and evaluates by
kernel reduction.  I/O effects are modelled twice: a pure model
(`process_file`) recording the resulting content, whether a write happened
and the returned value, and a fallible model (`process_file_eff`) in which
the read and the write may raise, returning `Except`.
-/

namespace AddNewTags

/-- The idempotency marker searched for by line 16 of the script:
`if "Padding" in buffer`. -/
def marker : List Char := "Padding".toList

/-- The search string of the substitution on line 19: `"  </Asset>"`. -/
def closingTag : List Char := "  </Asset>".toList

/-- The replacement string of the substitution on lines 19-20:
the padding line followed by the closing tag. -/
def insertedText : List Char := "    <Padding Null=\"true\" />\n  </Asset>".toList

/-- Fuel-indexed worker for Python `str.replace`: scan left to right; when
the pattern matches at the current position, emit the replacement and skip
past the matched occurrence (non-overlapping); otherwise emit one
character and continue.  Fuel bounds the number of scan steps; since every
step consumes at least one character, fuel equal to the input length never
runs out. -/
def replaceAllAux (pat repl : List Char) : Nat → List Char → List Char
  | 0, s => s
  | _ + 1, [] => []
  | fuel + 1, c :: rest =>
    if pat ≠ [] ∧ pat <+: c :: rest then
      repl ++ replaceAllAux pat repl fuel (rest.drop (pat.length - 1))
    else
      c :: replaceAllAux pat repl fuel rest

/-- Python `s.replace(pat, repl)` for a non-empty `pat` (the script's
pattern `"  </Asset>"` is non-empty): replace every non-overlapping
occurrence of `pat` in `s` by `repl`, scanning left to right. -/
def replaceAll (pat repl s : List Char) : List Char :=
  replaceAllAux pat repl s.length s

/-- Outcome of one pure `process_file` call on a single file: the file's
content afterwards, whether a write was performed, and the Python return
value (`some path` for `return path`, `none` for the implicit `None`). -/
structure FileOutcome where
  content : List Char
  wrote : Bool
  ret : Option String
deriving DecidableEq, Repr

/-- Pure model of `AddNewTags.process_file(path, dryrun)` acting on a file
whose current content is `content` (lines 8-23 of the script). -/
def process_file (path : String) (content : List Char) (dryrun : Bool) :
    FileOutcome :=
  if dryrun then
    ⟨content, false, some path⟩
  else if marker <:+: content then
    ⟨content, false, some path⟩
  else
    ⟨replaceAll closingTag insertedText content, true, none⟩

/-- A file together with the behaviour of its I/O operations: `readErr`
(resp. `writeErr`) is `some e` when opening/reading (resp. writing) the
file raises the error `e`, and `none` when the operation succeeds. -/
structure FileState where
  content : List Char
  readErr : Option String
  writeErr : Option String
deriving DecidableEq, Repr

/-- Fallible model of `process_file`: the same control flow as the script,
with the read (line 13-14) and the write (line 22-23) allowed to raise.
There is no `try`/`except` in the script, so a raised error propagates as
`Except.error`; a normal return yields the file's new state and the Python
return value. -/
def process_file_eff (path : String) (f : FileState) (dryrun : Bool) :
    Except String (FileState × Option String) :=
  if dryrun then
    Except.ok (f, some path)
  else
    match f.readErr with
    | some e => Except.error e
    | none =>
      if marker <:+: f.content then
        Except.ok (f, some path)
      else
        match f.writeErr with
        | some e => Except.error e
        | none =>
          Except.ok ({ f with content := replaceAll closingTag insertedText f.content }, none)

/-! ### Properties of the `str.replace` model -/

/-- If the pattern occurs nowhere in the input, the scan copies the input
unchanged, for any fuel. -/
theorem replaceAllAux_eq_of_not_infix (pat repl : List Char) :
    ∀ (fuel : Nat) (s : List Char), ¬ pat <:+: s →
      replaceAllAux pat repl fuel s = s := by
  intro fuel
  induction fuel with
  | zero => intro s _; rfl
  | succ n ih =>
    intro s h
    match s with
    | [] => rfl
    | c :: rest =>
      have hnp : ¬ (pat ≠ [] ∧ pat <+: c :: rest) := by
        rintro ⟨_, hp⟩
        exact h hp.isInfix
      have hrest : ¬ pat <:+: rest := fun hi => h (List.infix_cons hi)
      simp only [replaceAllAux, if_neg hnp]
      rw [ih rest hrest]

/-- The fuel is irrelevant as long as it is at least the input length. -/
theorem replaceAllAux_fuel_congr (pat repl : List Char) :
    ∀ (fuel₁ fuel₂ : Nat) (s : List Char), s.length ≤ fuel₁ → s.length ≤ fuel₂ →
      replaceAllAux pat repl fuel₁ s = replaceAllAux pat repl fuel₂ s := by
  intro fuel₁
  induction fuel₁ with
  | zero =>
    intro fuel₂ s h1 _
    have hs : s = [] := List.eq_nil_of_length_eq_zero (Nat.le_zero.mp h1)
    subst hs
    cases fuel₂ <;> rfl
  | succ n ih =>
    intro fuel₂ s h1 h2
    match s with
    | [] => cases fuel₂ <;> rfl
    | c :: rest =>
      match fuel₂ with
      | 0 => exact absurd h2 (by simp)
      | m + 1 =>
        have hr1 : rest.length ≤ n := Nat.succ_le_succ_iff.mp h1
        have hr2 : rest.length ≤ m := Nat.succ_le_succ_iff.mp h2
        by_cases hc : pat ≠ [] ∧ pat <+: c :: rest
        · simp only [replaceAllAux, if_pos hc]
          have hd : (rest.drop (pat.length - 1)).length ≤ rest.length := by
            rw [List.length_drop]
            exact Nat.sub_le _ _
          rw [ih _ _ (le_trans hd hr1) (le_trans hd hr2)]
        · simp only [replaceAllAux, if_neg hc]
          rw [ih m rest hr1 hr2]

/-- Once the scan finds an occurrence of the pattern, the replacement text
is inserted into the output; hence anything occurring in the replacement
occurs in the result. -/
theorem infix_replaceAllAux_of_infix (pat repl m : List Char) (hm : m <:+: repl)
    (hpat : pat ≠ []) :
    ∀ (fuel : Nat) (s : List Char), s.length ≤ fuel → pat <:+: s →
      m <:+: replaceAllAux pat repl fuel s := by
  intro fuel
  induction fuel with
  | zero =>
    intro s hl hi
    have hs : s = [] := List.eq_nil_of_length_eq_zero (Nat.le_zero.mp hl)
    subst hs
    exact absurd (List.infix_nil.mp hi) hpat
  | succ n ih =>
    intro s hl hi
    match s with
    | [] => exact absurd (List.infix_nil.mp hi) hpat
    | c :: rest =>
      by_cases hc : pat ≠ [] ∧ pat <+: c :: rest
      · simp only [replaceAllAux, if_pos hc]
        exact hm.trans (List.prefix_append repl _).isInfix
      · simp only [replaceAllAux, if_neg hc]
        have hnp : ¬ pat <+: c :: rest := fun hp => hc ⟨hpat, hp⟩
        have hrest : pat <:+: rest := (List.infix_cons_iff.mp hi).resolve_left hnp
        have hl' : rest.length ≤ n := Nat.succ_le_succ_iff.mp hl
        exact List.infix_cons (ih rest hl' hrest)

/-- `str.replace` is the identity when the pattern does not occur. -/
theorem replaceAll_eq_of_not_infix (pat repl s : List Char)
    (h : ¬ pat <:+: s) : replaceAll pat repl s = s :=
  replaceAllAux_eq_of_not_infix pat repl s.length s h

/-- If the pattern occurs in the input, anything occurring in the
replacement text occurs in the result of `str.replace`. -/
theorem infix_replaceAll_of_infix (pat repl m s : List Char) (hm : m <:+: repl)
    (hpat : pat ≠ []) (hs : pat <:+: s) : m <:+: replaceAll pat repl s :=
  infix_replaceAllAux_of_infix pat repl m hm hpat s.length s (le_refl _) hs

/-- An occurrence of the pattern at the head of the input is replaced, and
the scan continues on the remainder. -/
theorem replaceAll_pat_append (pat repl t : List Char) (hpat : pat ≠ []) :
    replaceAll pat repl (pat ++ t) = repl ++ replaceAll pat repl t := by
  obtain ⟨c, pat', rfl⟩ : ∃ c pat', pat = c :: pat' := by
    cases pat with
    | nil => exact absurd rfl hpat
    | cons c pat' => exact ⟨c, pat', rfl⟩
  show replaceAllAux (c :: pat') repl ((pat' ++ t).length + 1) (c :: (pat' ++ t))
      = repl ++ replaceAll (c :: pat') repl t
  have hpre : (c :: pat') ≠ [] ∧ (c :: pat') <+: c :: (pat' ++ t) :=
    ⟨hpat, List.prefix_append (c :: pat') t⟩
  simp only [replaceAllAux, if_pos hpre]
  congr 1
  show replaceAllAux (c :: pat') repl (pat' ++ t).length ((pat' ++ t).drop pat'.length)
      = replaceAll (c :: pat') repl t
  rw [List.drop_left]
  exact replaceAllAux_fuel_congr _ _ _ _ _
    (by simp) (le_refl _)

/-- When the pattern does not match at the current position, the scan
emits one character and continues. -/
theorem replaceAll_cons_of_no_match (pat repl : List Char) (c : Char)
    (s : List Char) (h : ¬ pat <+: c :: s) :
    replaceAll pat repl (c :: s) = c :: replaceAll pat repl s := by
  show replaceAllAux pat repl (s.length + 1) (c :: s)
      = c :: replaceAllAux pat repl s.length s
  have hc : ¬ (pat ≠ [] ∧ pat <+: c :: s) := fun hx => h hx.2
  simp only [replaceAllAux, if_neg hc]

/-- An occurrence of the pattern at any position is replaced: if no
occurrence of the pattern starts before position `a.length` (equivalently,
the pattern does not occur in `a ++ pat.dropLast`), the scan copies `a`
verbatim, replaces the occurrence that follows it, and continues on the
rest. -/
theorem replaceAll_append (pat repl : List Char) (hpat : pat ≠ []) :
    ∀ (a t : List Char), ¬ pat <:+: a ++ pat.dropLast →
      replaceAll pat repl (a ++ (pat ++ t))
        = a ++ (repl ++ replaceAll pat repl t) := by
  intro a
  induction a with
  | nil =>
    intro t _
    simpa using replaceAll_pat_append pat repl t hpat
  | cons c a' ih =>
    intro t ha
    have hlen : 1 ≤ pat.length := List.length_pos.mpr hpat
    have hnp : ¬ pat <+: c :: (a' ++ (pat ++ t)) := by
      intro hp
      have hx : ((c :: a') ++ pat.dropLast) ++ ([pat.getLast hpat] ++ t)
          = c :: (a' ++ (pat ++ t)) := by
        rw [List.append_assoc, ← List.append_assoc pat.dropLast,
          List.dropLast_append_getLast hpat, List.cons_append]
      rw [← hx] at hp
      have hle : pat.length ≤ ((c :: a') ++ pat.dropLast).length := by
        simp only [List.length_append, List.length_cons, List.length_dropLast]
        omega
      exact ha ((List.isPrefix_append_of_length hle).mp hp).isInfix
    have ha' : ¬ pat <:+: a' ++ pat.dropLast := fun hi =>
      ha (List.infix_cons hi)
    rw [List.cons_append]
    rw [replaceAll_cons_of_no_match pat repl c (a' ++ (pat ++ t)) hnp]
    rw [ih t ha', List.cons_append]

/-! ### Claims -/

/-- Claim C1, counterexample: a file whose content is `"hello"` matches no
occurrence of `"  </Asset>"`; after `process_file` with `dryrun = false`
its content is unchanged and still does not contain the marker
`"Padding"`, so the claim as stated is false. -/
theorem C1_counterexample :
    ¬ marker <:+: "hello".toList ∧
    (process_file "a.xml" "hello".toList false).content = "hello".toList ∧
    ¬ marker <:+: (process_file "a.xml" "hello".toList false).content := by
  decide

/-- Claim C1 (amended): for every file whose content does not contain the
marker `"Padding"` but does contain the closing-tag string `"  </Asset>"`,
after `process_file` runs with `dryrun = false` the content contains the
marker. -/
theorem C1_marker_present_after_run (p : String) (c : List Char)
    (h1 : ¬ marker <:+: c) (h2 : closingTag <:+: c) :
    marker <:+: (process_file p c false).content := by
  have hc : (process_file p c false).content
      = replaceAll closingTag insertedText c := by
    simp [process_file, h1]
  rw [hc]
  exact infix_replaceAll_of_infix closingTag insertedText marker c
    (by decide) (by decide) h2

/-- Claim C1, witness: the amended theorem applied to content consisting of
exactly one closing tag. -/
theorem C1_witness :
    (¬ marker <:+: closingTag) ∧ closingTag <:+: closingTag ∧
    marker <:+: (process_file "a.xml" closingTag false).content :=
  ⟨by decide, by decide,
    C1_marker_present_after_run "a.xml" closingTag (by decide) (by decide)⟩

/-- Claim C2: with `dryrun = true`, `process_file` returns the path at once
(lines 10-11 of the script); the content is untouched and no write
occurs, regardless of marker presence. -/
theorem C2_dryrun_never_mutates (p : String) (c : List Char) :
    process_file p c true = ⟨c, false, some p⟩ := rfl

/-- Claim C3: when the content already contains the marker `"Padding"`,
`process_file` returns the path with the content unchanged and no write,
for either value of `dryrun` (lines 16-17 of the script). -/
theorem C3_marked_file_untouched (p : String) (c : List Char) (d : Bool)
    (h : marker <:+: c) :
    process_file p c d = ⟨c, false, some p⟩ := by
  cases d with
  | true => rfl
  | false => simp [process_file, h]

/-- Claim C3, witness: the theorem applied to content equal to the marker
itself, with `dryrun = false`. -/
theorem C3_witness :
    marker <:+: marker ∧
    process_file "a.xml" marker false = ⟨marker, false, some "a.xml"⟩ :=
  ⟨by decide, C3_marked_file_untouched "a.xml" marker false (by decide)⟩

/-- Claim C4: the content produced by one non-dry-run pass is a fixed point
of the transform: a second non-dry-run pass yields the same content. -/
theorem C4_second_pass_fixed_point (p : String) (c : List Char) :
    (process_file p (process_file p c false).content false).content
      = (process_file p c false).content := by
  by_cases h : marker <:+: c
  · simp [process_file, h]
  · have h1 : (process_file p c false).content
        = replaceAll closingTag insertedText c := by
      simp [process_file, h]
    rw [h1]
    by_cases h2 : closingTag <:+: c
    · have hm : marker <:+: replaceAll closingTag insertedText c :=
        infix_replaceAll_of_infix closingTag insertedText marker c
          (by decide) (by decide) h2
      simp [process_file, hm]
    · have he : replaceAll closingTag insertedText c = c :=
        replaceAll_eq_of_not_infix closingTag insertedText c h2
      rw [he]
      simp [process_file, h]
      exact he

/-- Claim C5, counterexample: on content made of two adjacent closing tags
(no marker present), the non-dry-run pass rewrites BOTH occurrences —
Python `str.replace` substitutes every occurrence — whereas replacing only
the first occurrence would yield `insertedText ++ closingTag`. -/
theorem C5_counterexample :
    (process_file "a.xml" (closingTag ++ closingTag) false).content
      = insertedText ++ insertedText ∧
    insertedText ++ insertedText ≠ insertedText ++ closingTag := by
  decide

/-- Claim C5 (amended): for every content not containing the marker, the
substitution replaces EVERY occurrence of `"  </Asset>"`, at any position,
with the inserted padding line followed by that same closing-tag string:
whenever the content decomposes as `a ++ closingTag ++ t` with no
occurrence of the closing tag starting before position `a.length`, the
prefix `a` is copied verbatim, the occurrence is replaced by
`insertedText`, and the remainder `t` is transformed exactly as
`process_file` transforms it — so later occurrences, inside `t`, are
replaced too, not left untouched. -/
theorem C5_every_occurrence_replaced (p : String) (a t : List Char)
    (hm : ¬ marker <:+: a ++ (closingTag ++ t))
    (ha : ¬ closingTag <:+: a ++ closingTag.dropLast) :
    (process_file p (a ++ (closingTag ++ t)) false).content
      = a ++ (insertedText ++ (process_file p t false).content) := by
  have ht : t <:+: a ++ (closingTag ++ t) := by
    rw [← List.append_assoc]
    exact (List.suffix_append (a ++ closingTag) t).isInfix
  have hm' : ¬ marker <:+: t := fun h => hm (h.trans ht)
  have hc1 : (process_file p (a ++ (closingTag ++ t)) false).content
      = replaceAll closingTag insertedText (a ++ (closingTag ++ t)) := by
    simp [process_file, hm]
  have hc2 : (process_file p t false).content
      = replaceAll closingTag insertedText t := by
    simp [process_file, hm']
  rw [hc1, hc2, replaceAll_append closingTag insertedText (by decide) a t ha]

/-- Claim C5, witness: the amended theorem applied to content
`"x  </Asset>y  </Asset>"` — an occurrence after the unrelated prefix
`"x"`, with a further occurrence inside the remainder. -/
theorem C5_witness :
    (¬ marker <:+: "x".toList ++ (closingTag ++ ("y".toList ++ closingTag))) ∧
    (¬ closingTag <:+: "x".toList ++ closingTag.dropLast) ∧
    (process_file "a.xml" ("x".toList ++ (closingTag ++ ("y".toList ++ closingTag))) false).content
      = "x".toList ++ (insertedText
          ++ (process_file "a.xml" ("y".toList ++ closingTag) false).content) :=
  ⟨by decide, by decide,
    C5_every_occurrence_replaced "a.xml" "x".toList ("y".toList ++ closingTag)
      (by decide) (by decide)⟩

/-- Claim C6, counterexample: on empty content (no marker), the script
performs the substitution and the write, then falls off the end of
`process_file`, returning Python `None` — not the path. -/
theorem C6_counterexample :
    (process_file "a.xml" [] false).wrote = true ∧
    (process_file "a.xml" [] false).ret ≠ some "a.xml" ∧
    (process_file "a.xml" [] false).ret = none := by
  decide

/-- Claim C6 (amended): `process_file` returns the path when `dryrun` is
true or when the content contains the marker; in the case where it
performs the substitution and writes the file back, it returns `None`. -/
theorem C6_return_value (p : String) (c : List Char) (d : Bool) :
    (process_file p c d).ret
      = if d = true then some p
        else if marker <:+: c then some p else none := by
  cases d with
  | true => rfl
  | false => by_cases h : marker <:+: c <;> simp [process_file, h]

/-- Claim C7, counterexample: with `dryrun = true` the script returns
before any read (lines 10-11 precede the `open` on line 13), so a file
whose read would raise still yields a normal return — the read error does
NOT propagate in dry-run mode, contradicting the claimed ordering. -/
theorem C7_counterexample :
    process_file_eff "a.xml" ⟨[], some "read error", none⟩ true
      = Except.ok (⟨[], some "read error", none⟩, some "a.xml") := rfl

/-- Claim C7 (amended): `process_file` checks `dryrun` first and, when it
is true, returns the path immediately without reading, so no read error
can propagate in dry-run mode; only with `dryrun = false` is the file
read, and a read error then propagates. -/
theorem C7_dryrun_checked_before_read (p : String) (f : FileState) (e : String) :
    process_file_eff p f true = Except.ok (f, some p) ∧
    (f.readErr = some e → process_file_eff p f false = Except.error e) := by
  refine ⟨rfl, fun h => ?_⟩
  simp [process_file_eff, h]

/-- Claim C7, witness: the amended theorem applied to a file whose read
raises `"boom"`. -/
theorem C7_witness :
    process_file_eff "a.xml" ⟨[], some "boom", none⟩ true
      = Except.ok (⟨[], some "boom", none⟩, some "a.xml") ∧
    process_file_eff "a.xml" ⟨[], some "boom", none⟩ false
      = Except.error "boom" := by
  obtain ⟨h1, h2⟩ :=
    C7_dryrun_checked_before_read "a.xml" ⟨[], some "boom", none⟩ "boom"
  exact ⟨h1, h2 rfl⟩

/-- Claim C8: the script contains no `try`/`except`; in a non-dry-run
call, an error raised by the read propagates out of `process_file`, and an
error raised by the write (reached when the marker is absent) propagates
as well — none is caught. -/
theorem C8_errors_propagate (p : String) (f : FileState) (e : String) :
    (f.readErr = some e → process_file_eff p f false = Except.error e) ∧
    (f.readErr = none → ¬ marker <:+: f.content → f.writeErr = some e →
      process_file_eff p f false = Except.error e) := by
  constructor
  · intro h
    simp [process_file_eff, h]
  · intro h1 h2 h3
    simp [process_file_eff, h1, h2, h3]

/-- Claim C8, witness: the theorem applied to a file whose read raises and
to a file whose write raises. -/
theorem C8_witness :
    process_file_eff "a.xml" ⟨[], some "read denied", none⟩ false
      = Except.error "read denied" ∧
    process_file_eff "a.xml" ⟨[], none, some "write denied"⟩ false
      = Except.error "write denied" :=
  ⟨(C8_errors_propagate "a.xml" ⟨[], some "read denied", none⟩ "read denied").1 rfl,
   (C8_errors_propagate "a.xml" ⟨[], none, some "write denied"⟩ "write denied").2
     rfl (by decide) rfl⟩

/-- Claim C9: the idempotency check is a plain substring search: a file
whose content contains `"Padding"` only in unrelated text, while still
containing an untransformed `"  </Asset>"` closing tag, is skipped
without a write, so the transform is never applied to it. -/
theorem C9_substring_false_positive (p : String) :
    marker <:+: "unrelated Padding text  </Asset>".toList ∧
    closingTag <:+: "unrelated Padding text  </Asset>".toList ∧
    process_file p "unrelated Padding text  </Asset>".toList false
      = ⟨"unrelated Padding text  </Asset>".toList, false, some p⟩ := by
  have hm : marker <:+: "unrelated Padding text  </Asset>".toList := by decide
  refine ⟨hm, by decide, ?_⟩
  unfold process_file
  rw [if_neg (by decide : ¬ (false = true)), if_pos hm]

/-- Claim C10: when the content contains neither the marker nor the
closing tag, a non-dry-run call still performs a write, and the written
content is identical to the original (the substitution found nothing to
replace). -/
theorem C10_noop_write (p : String) (c : List Char)
    (h1 : ¬ marker <:+: c) (h2 : ¬ closingTag <:+: c) :
    process_file p c false = ⟨c, true, none⟩ := by
  have he : replaceAll closingTag insertedText c = c :=
    replaceAll_eq_of_not_infix closingTag insertedText c h2
  simp [process_file, h1, he]

/-- Claim C10, witness: the theorem applied to the content `"hello"`. -/
theorem C10_witness :
    (¬ marker <:+: "hello".toList) ∧ (¬ closingTag <:+: "hello".toList) ∧
    process_file "a.xml" "hello".toList false = ⟨"hello".toList, true, none⟩ :=
  ⟨by decide, by decide,
    C10_noop_write "a.xml" "hello".toList (by decide) (by decide)⟩

end AddNewTags
